import Mathlib

/-!
Shallow embedding of `src/class-action.ts` (the `ClassAction` class).

Modelling choices:
* Actions live in a heap (`Heap`, a list of objects) and are referred to by
  their index (`Nat`); reference identity is index equality.
* A JavaScript class is modelled by `JSClass`: the root class `ClassAction`
  plus `extend` nodes, each carrying an optional *own* `static reactions`
  property (an absent property is `none`).  Static property access
  `this.reactions` in JavaScript resolves through the constructor prototype
  chain, modelled by `staticLookup`.
* An instance's own `reactions` property is `Option (List Nat)`:
  `none` means `hasOwnProperty("reactions")` is false.
* Subclass overrides of `doAction` are arbitrary code; they are modelled by a
  parameter `δ : Nat → χ → St α → St α × Option ε` that may mutate the whole
  state (heap plus auxiliary data `α`, e.g. a shared counter or trace) and may
  throw (`some e`); mutations made before a throw persist, as in JavaScript.
* `act`/`doReactions` recurse through the reaction graph; a fuel parameter
  makes the recursion well-founded, `none` meaning fuel ran out (the
  JavaScript original simply does not terminate on such graphs).
-/

/-- A JavaScript class in the `ClassAction` hierarchy: the root class, or a
subclass with an optional own `static reactions` array and a parent class. -/
inductive JSClass where
  | classAction : JSClass
  | extend (own : Option (List Nat)) (parent : JSClass) : JSClass
deriving Repr, DecidableEq

namespace JSClass

/-- The own `static reactions` property of a class (`none` if the class does
not itself declare one).  `ClassAction`'s declaration
`static reactions: ClassAction<any>[];` emits no property. -/
def ownStatic : JSClass → Option (List Nat)
  | .classAction => none
  | .extend own _ => own

/-- JavaScript property lookup for `this.reactions` on a constructor:
the first own `reactions` property found along the prototype chain. -/
def staticLookup : JSClass → Option (List Nat)
  | .classAction => none
  | .extend own parent =>
    match own with
    | some l => some l
    | none => staticLookup parent

/-- `static getReactions<T>(context?: T) { return this.reactions || [] }`
from `src/class-action.ts`, invoked with `this` bound to the class `c`. -/
def staticGetReactions {χ : Type} (c : JSClass) (_context : Option χ) : List Nat :=
  (staticLookup c).getD []

end JSClass

/-- A `ClassAction` instance: its runtime class and its own `reactions`
property (`none` when `hasOwnProperty("reactions")` is false). -/
structure ClassActionObj where
  cls : JSClass
  reactions : Option (List Nat)
deriving Repr, DecidableEq

namespace ClassActionObj

/-- The constructor body of `ClassAction`:
`if (reactions.length) { if (!(this.hasOwnProperty('reactions'))) this.reactions = reactions; else this.reactions.push(...reactions); }` -/
def constructorBody (self : ClassActionObj) (args : List Nat) : ClassActionObj :=
  if args.isEmpty then self
  else
    match self.reactions with
    | none => { self with reactions := some args }
    | some l => { self with reactions := some (l ++ args) }

/-- Instance method `getReactions(context?)`:
`if (!(this.hasOwnProperty('reactions'))) return []; else return this.reactions`. -/
def getReactions {χ : Type} (self : ClassActionObj) (_context : Option χ) : List Nat :=
  match self.reactions with
  | none => []
  | some l => l

/-- `getAllReactions(context?)`:
`const result = (<typeof ClassAction>this.constructor).getReactions(context); return [result, this.getReactions(context)].flat();`
`this.constructor` is the runtime class of the object; `[a, b].flat()` is the
concatenation of the two arrays into a fresh array. -/
def getAllReactions {χ : Type} (self : ClassActionObj) (context : Option χ) : List Nat :=
  let result := JSClass.staticGetReactions self.cls context
  result ++ self.getReactions context

/-- `addReactions(...reactions)`:
`if (!(this.hasOwnProperty('reactions'))) this.reactions = []; this.reactions.push(...reactions);` -/
def addReactions (self : ClassActionObj) (args : List Nat) : ClassActionObj :=
  let self1 :=
    if self.reactions.isNone then { self with reactions := some [] } else self
  { self1 with reactions := some (self1.reactions.getD [] ++ args) }

/-- `Array.prototype.indexOf`: first index whose element is strictly equal to
`r`, or `-1` when absent. -/
def jsIndexOf (l : List Nat) (r : Nat) : Int :=
  match l.findIdx? (· == r) with
  | some i => (i : Int)
  | none => -1

/-- `Array.prototype.splice(start, 1)`: a negative `start` counts from the
end clamped at `0`, a `start` past the end is clamped to the length; one
element (if any) at the resulting position is removed. -/
def jsSpliceOne (l : List Nat) (start : Int) : List Nat :=
  let s : Nat :=
    if start < 0 then ((l.length : Int) + start).toNat else min start.toNat l.length
  l.take s ++ l.drop (s + 1)

/-- `removeReaction(reaction)`:
`if (!(this.hasOwnProperty('reactions'))) return; this.reactions.splice(this.reactions.indexOf(reaction), 1);` -/
def removeReaction (self : ClassActionObj) (r : Nat) : ClassActionObj :=
  match self.reactions with
  | none => self
  | some l => { self with reactions := some (jsSpliceOne l (jsIndexOf l r)) }

end ClassActionObj

/-- The heap of `ClassAction` instances; an id is an index into this list. -/
abbrev Heap := List ClassActionObj

/-- A fresh `new ClassAction()` with no reactions (used as the out-of-range
default when dereferencing an id). -/
def plainObj : ClassActionObj := ⟨JSClass.classAction, none⟩

/-- Dereference an action id in the heap. -/
def Heap.obj (h : Heap) (i : Nat) : ClassActionObj := h.getD i plainObj

/-- The full mutable state during a propagation: the heap of actions plus
auxiliary data `α` (e.g. a shared counter or an invocation trace) touched
only by subclass `doAction` overrides. -/
structure St (α : Type) where
  heap : Heap
  aux : α
deriving Repr, DecidableEq

/-- The type of `doAction` implementations (subclass overrides): given the
id of the receiver, the context and the state, return the new state and
optionally a thrown exception of type `ε`.  The default implementation of
`doAction` in `ClassAction` is `fun _ _ st => (st, none)` (an empty body). -/
abbrev DoAction (χ α ε : Type) := Nat → Option χ → St α → St α × Option ε

/-- The default `doAction(context?)` of `ClassAction`: an empty body. -/
def doActionDefault {χ α ε : Type} : DoAction χ α ε := fun _ _ st => (st, none)

/-- Result of a propagation: `none` when fuel ran out, otherwise the final
state together with the exception propagating out of the call (if any). -/
abbrev Res (α ε : Type) := Option (St α × Option ε)

/-- The loop of `doReactions`:
`for (let reaction of this.getAllReactions(context)) { reaction.act(context); }` —
invoke `step` (the `act` of the nested level) on each listed reaction in
order; an exception aborts the remaining iterations and propagates. -/
def runList {χ α ε : Type} (step : Nat → Option χ → St α → Res α ε) :
    List Nat → Option χ → St α → Res α ε
  | [], _, st => some (st, none)
  | r :: rest, ctx, st =>
    match step r ctx st with
    | none => none
    | some (st', some e) => some (st', some e)
    | some (st', none) => runList step rest ctx st'

/-- `act(context?) { this.doAction(context); this.doReactions(context); }` —
if `doAction` throws, the exception propagates and the reactions never run.
On success the remainder is exactly the body of `doReactions` (see
`doReactions` below): the fresh array `getAllReactions(context)` is computed
once and each listed reaction's `act` is invoked on it in order.  One unit of
fuel is consumed per nesting level. -/
def act {χ α ε : Type} (δ : DoAction χ α ε) : Nat → Nat → Option χ → St α → Res α ε
  | 0 => fun _ _ _ => none
  | fuel + 1 =>
    let step := act δ fuel
    fun i ctx st =>
      match δ i ctx st with
      | (st', some e) => some (st', some e)
      | (st', none) => runList step ((st'.heap.obj i).getAllReactions ctx) ctx st'

/-- `doReactions(context?) { for (let reaction of this.getAllReactions(context)) { reaction.act(context); } }` —
the reaction list is the fresh array returned by `getAllReactions`, computed
once before the loop starts; `fuel` bounds the recursion depth of the nested
`act` calls. -/
def doReactions {χ α ε : Type} (δ : DoAction χ α ε) (fuel i : Nat)
    (ctx : Option χ) (st : St α) : Res α ε :=
  runList (act δ fuel) ((st.heap.obj i).getAllReactions ctx) ctx st

/-! ## Concrete scenarios used by the claims -/

/-- A `doAction` override that appends the receiver's id to a shared trace
(the trace's length doubles as the shared counter of the spec's scenarios);
it throws nothing and mutates nothing else. -/
def traceAction : DoAction Unit (List Nat) Unit :=
  fun i _ st => ({ st with aux := st.aux ++ [i] }, none)

/-- A heap with one root action (id 0) holding instance reactions `[1, 2]`,
and two plain reaction actions (ids 1 and 2) with no reactions of their own. -/
def heapTwo : Heap := [⟨JSClass.classAction, some [1, 2]⟩, plainObj, plainObj]

/-- A `doAction` override that appends the receiver's id to the trace and, on
action 2 only, throws the exception `42`. -/
def throwAction : DoAction Unit (List Nat) Nat :=
  fun i _ st =>
    ({ st with aux := st.aux ++ [i] }, if i == 2 then some 42 else none)

/-- A heap with one root action (id 0) holding instance reactions `[1, 2, 3]`,
and three plain reaction actions. -/
def heapThree : Heap :=
  [⟨JSClass.classAction, some [1, 2, 3]⟩, plainObj, plainObj, plainObj]

/-- A `doAction` override where reaction 1, when invoked, calls
`removeReaction(2)` on the root action 0 (besides tracing); every other
action only traces. -/
def removingAction : DoAction Unit (List Nat) Unit :=
  fun i _ st =>
    if i == 1 then
      ({ heap := st.heap.set 0 ((st.heap.obj 0).removeReaction 2),
         aux := st.aux ++ [i] }, none)
    else ({ st with aux := st.aux ++ [i] }, none)

/-- A `doAction` override where reaction 1, when invoked, calls
`addReactions(1)` on the root action 0 (besides tracing); every other action
only traces. -/
def addingAction : DoAction Unit (List Nat) Unit :=
  fun i _ st =>
    if i == 1 then
      ({ heap := st.heap.set 0 ((st.heap.obj 0).addReactions [1]),
         aux := st.aux ++ [i] }, none)
    else ({ st with aux := st.aux ++ [i] }, none)

/-! ## Helper lemmas -/

/-- When `r` occurs in `l`, `splice(indexOf(r), 1)` removes exactly the first
occurrence of `r`, i.e. computes `List.erase`. -/
lemma jsSpliceOne_jsIndexOf_eq_erase (l : List Nat) (r : Nat) (h : r ∈ l) :
    ClassActionObj.jsSpliceOne l (ClassActionObj.jsIndexOf l r) = l.erase r := by
  induction l with
  | nil => cases h
  | cons a rest ih =>
    by_cases har : a = r
    · subst har
      simp [ClassActionObj.jsIndexOf, ClassActionObj.jsSpliceOne,
        List.findIdx?_cons]
    · have hr : r ∈ rest := by
        rcases List.mem_cons.mp h with h1 | h1
        · exact absurd h1.symm har
        · exact h1
      have hbeq : (a == r) = false := beq_eq_false_iff_ne.mpr har
      have hany : rest.any (· == r) = true :=
        List.any_eq_true.mpr ⟨r, hr, beq_self_eq_true r⟩
      obtain ⟨i, hi⟩ : ∃ i, rest.findIdx? (· == r) = some i := by
        have := @List.findIdx?_isSome Nat rest (· == r)
        rw [hany] at this
        exact Option.isSome_iff_exists.mp this
      have hilt : i < rest.length :=
        (List.findIdx?_eq_some_iff_findIdx_eq.mp hi).1
      have hidx : ClassActionObj.jsIndexOf (a :: rest) r = ((i + 1 : Nat) : Int) := by
        unfold ClassActionObj.jsIndexOf
        rw [List.findIdx?_cons, if_neg (by simp [hbeq]), List.findIdx?_succ, hi]
        rfl
      have hidxr : ClassActionObj.jsIndexOf rest r = (i : Int) := by
        unfold ClassActionObj.jsIndexOf
        rw [hi]
      rw [hidx]
      have hs1 : ClassActionObj.jsSpliceOne (a :: rest) ((i + 1 : Nat) : Int) =
          a :: (rest.take i ++ rest.drop (i + 1)) := by
        unfold ClassActionObj.jsSpliceOne
        rw [if_neg (by omega)]
        simp only [Int.toNat_natCast, List.length_cons]
        rw [min_eq_left (by omega)]
        simp [List.take_succ_cons, List.drop_succ_cons]
      have hs2 : ClassActionObj.jsSpliceOne rest ((i : Nat) : Int) =
          rest.take i ++ rest.drop (i + 1) := by
        unfold ClassActionObj.jsSpliceOne
        rw [if_neg (by omega)]
        simp only [Int.toNat_natCast]
        rw [min_eq_left (by omega)]
      have := ih hr
      rw [hidxr, hs2] at this
      rw [hs1, this, List.erase_cons_tail (by simp [hbeq])]

/-! ## Claims -/

/-- Claim C1 (the code evaluated at the failing input): when the instance has
no own `reactions` sequence, `removeReaction(2)` is a no-op, and on an
existing empty sequence it is a no-op too; but on an instance whose sequence
is `[1]`, removing the absent reference `2` deletes the last element
(`indexOf` returns `-1` and `splice(-1, 1)` removes the final entry), so the
call is not the silent no-op the claim states. -/
theorem removeReaction_absent_not_noop :
    ClassActionObj.removeReaction ⟨JSClass.classAction, none⟩ 2 =
      ⟨JSClass.classAction, none⟩ ∧
    ClassActionObj.removeReaction ⟨JSClass.classAction, some []⟩ 2 =
      ⟨JSClass.classAction, some []⟩ ∧
    (2 : Nat) ∉ [1] ∧
    ClassActionObj.removeReaction ⟨JSClass.classAction, some [1]⟩ 2 =
      ⟨JSClass.classAction, some []⟩ := by
  exact ⟨rfl, by decide, by decide, by decide⟩

/-- Claim C2 counterexample: a subtype that declares no own static
`reactions` sequence, but whose supertype owns `[5]`, returns the inherited
`[5]` from the static `getReactions`, not the empty sequence the claim
requires for a type that declares no sequence. -/
theorem staticGetReactions_noOwn_cex :
    JSClass.ownStatic
      (JSClass.extend none (JSClass.extend (some [5]) JSClass.classAction)) = none ∧
    JSClass.staticGetReactions
      (JSClass.extend none (JSClass.extend (some [5]) JSClass.classAction))
      (none : Option Unit) = [5] := by
  exact ⟨rfl, rfl⟩

/-- Claim C2 (amended): the static `getReactions` returns the nearest own
static `reactions` sequence along the supertype (prototype) chain — a type
that owns one returns it, a type that owns none returns its supertype's
result, and the root (hence any type with no owning supertype) returns the
empty sequence. -/
theorem staticGetReactions_chain :
    (∀ (χ : Type) (ctx : Option χ) (own : List Nat) (parent : JSClass),
      JSClass.staticGetReactions (JSClass.extend (some own) parent) ctx = own) ∧
    (∀ (χ : Type) (ctx : Option χ) (parent : JSClass),
      JSClass.staticGetReactions (JSClass.extend none parent) ctx =
        JSClass.staticGetReactions parent ctx) ∧
    (∀ (χ : Type) (ctx : Option χ),
      JSClass.staticGetReactions JSClass.classAction ctx = ([] : List Nat)) := by
  exact ⟨fun χ ctx own parent => rfl, fun χ ctx parent => rfl, fun χ ctx => rfl⟩

/-- Claim C3: for every instance, context, override and state, `act` runs
`doAction` first and, only when it returns normally, `doReactions` on the
resulting state, synchronously on the same call; concretely, on an instance
with two reactions whose `doAction` overrides each record an invocation on a
shared trace, `act` produces the trace `[0, 1, 2]` — exactly three
increments, each `doAction` invoked once, the local effect (id 0) first. -/
theorem act_doAction_then_doReactions :
    (∀ (χ α ε : Type) (δ : DoAction χ α ε) (fuel i : Nat) (ctx : Option χ) (st : St α),
      act δ (fuel + 1) i ctx st =
        match δ i ctx st with
        | (st1, some e) => some (st1, some e)
        | (st1, none) => doReactions δ fuel i ctx st1) ∧
    act traceAction 5 0 none { heap := heapTwo, aux := [] } =
      some ({ heap := heapTwo, aux := [0, 1, 2] }, none) := by
  exact ⟨fun χ α ε δ fuel i ctx st => rfl, by decide⟩

/-- Claim C4: `getAllReactions` is exactly the concatenation of the static
`getReactions` of the object's dynamic class with the instance-level
`getReactions`, each preserving its order; with a subtype owning type-level
`[1, 2]` and instance reactions `[1, 2]` it yields `[1, 2, 1, 2]`.  It is a
pure function of the object (no mutation). -/
theorem getAllReactions_concat :
    (∀ (χ : Type) (self : ClassActionObj) (ctx : Option χ),
      self.getAllReactions ctx =
        JSClass.staticGetReactions self.cls ctx ++ self.getReactions ctx) ∧
    (∀ (χ : Type) (ctx : Option χ) (own l : List Nat) (parent : JSClass),
      ClassActionObj.getAllReactions
        ⟨JSClass.extend (some own) parent, some l⟩ ctx = own ++ l) ∧
    ClassActionObj.getAllReactions
      ⟨JSClass.extend (some [1, 2]) JSClass.classAction, some [1, 2]⟩
      (none : Option Unit) = [1, 2, 1, 2] := by
  exact ⟨fun χ self ctx => rfl, fun χ ctx own l parent => rfl, by decide⟩

/-- Claim C5: with a non-empty argument list, the constructor sets the own
`reactions` sequence to exactly that list when the instance has none, and
appends the arguments to the existing sequence when it has one; and
`new ClassAction(r1, r2)` on a plain instance makes `getReactions()` yield
`[r1, r2]` in that order. -/
theorem constructorBody_sets_or_appends :
    (∀ (self : ClassActionObj) (args : List Nat), args ≠ [] →
      (self.reactions = none →
        self.constructorBody args = { self with reactions := some args }) ∧
      (∀ l, self.reactions = some l →
        self.constructorBody args = { self with reactions := some (l ++ args) })) ∧
    (plainObj.constructorBody [1, 2]).getReactions (none : Option Unit) = [1, 2] := by
  constructor
  · intro self args hargs
    have hne : args.isEmpty = false := by
      cases args with
      | nil => exact absurd rfl hargs
      | cons a t => rfl
    constructor
    · intro hnone
      simp [ClassActionObj.constructorBody, hne, hnone]
    · intro l hl
      simp [ClassActionObj.constructorBody, hne, hl]
  · decide

/-- Claim C5 witness: the theorem applied to an instance already holding
`[5]` and the non-empty argument list `[1]`. -/
theorem constructorBody_sets_or_appends_witness :
    ([1] ≠ ([] : List Nat)) ∧
    ClassActionObj.constructorBody ⟨JSClass.classAction, some [5]⟩ [1] =
      ⟨JSClass.classAction, some [5, 1]⟩ :=
  ⟨by decide,
    (constructorBody_sets_or_appends.1 ⟨JSClass.classAction, some [5]⟩ [1]
      (by decide)).2 [5] rfl⟩

/-- Claim C6: `addReactions` appends the given reactions in order to the own
`reactions` sequence, treating a missing sequence as freshly created empty,
with no deduplication; `addReactions(r2, r2)` on `[1, 2]` yields
`[1, 2, 2, 2]`, and on a plain instance the sequence is created. -/
theorem addReactions_appends :
    (∀ (self : ClassActionObj) (args : List Nat),
      self.addReactions args =
        { self with reactions := some (self.reactions.getD [] ++ args) }) ∧
    ClassActionObj.addReactions ⟨JSClass.classAction, some [1, 2]⟩ [2, 2] =
      ⟨JSClass.classAction, some [1, 2, 2, 2]⟩ ∧
    ClassActionObj.addReactions ⟨JSClass.classAction, none⟩ [3] =
      ⟨JSClass.classAction, some [3]⟩ := by
  refine ⟨fun self args => ?_, by decide, by decide⟩
  cases h : self.reactions with
  | none => simp [ClassActionObj.addReactions, h]
  | some l => simp [ClassActionObj.addReactions, h]

/-- Claim C7: when the own `reactions` sequence exists and contains the
given reference, `removeReaction` removes exactly the first occurrence (the
result is `List.erase`, which drops the first occurrence and nothing else),
leaving every other field unchanged; `removeReaction(2)` on `[1, 2]` yields
`[1]` and on `[1, 2, 5, 2]` yields `[1, 5, 2]`. -/
theorem removeReaction_first_occurrence :
    (∀ (self : ClassActionObj) (l : List Nat) (r : Nat),
      self.reactions = some l → r ∈ l →
      self.removeReaction r = { self with reactions := some (l.erase r) }) ∧
    ClassActionObj.removeReaction ⟨JSClass.classAction, some [1, 2]⟩ 2 =
      ⟨JSClass.classAction, some [1]⟩ ∧
    ClassActionObj.removeReaction ⟨JSClass.classAction, some [1, 2, 5, 2]⟩ 2 =
      ⟨JSClass.classAction, some [1, 5, 2]⟩ := by
  refine ⟨fun self l r hl hr => ?_, by decide, by decide⟩
  simp [ClassActionObj.removeReaction, hl, jsSpliceOne_jsIndexOf_eq_erase l r hr]

/-- Claim C7 witness: the theorem applied to an instance holding `[7, 2, 2]`
with the member reference `2`; exactly the first occurrence goes. -/
theorem removeReaction_first_occurrence_witness :
    (⟨JSClass.classAction, some [7, 2, 2]⟩ : ClassActionObj).reactions =
      some [7, 2, 2] ∧
    (2 : Nat) ∈ [7, 2, 2] ∧
    ClassActionObj.removeReaction ⟨JSClass.classAction, some [7, 2, 2]⟩ 2 =
      ⟨JSClass.classAction, some [7, 2]⟩ :=
  ⟨rfl, by decide,
    removeReaction_first_occurrence.1 ⟨JSClass.classAction, some [7, 2, 2]⟩
      [7, 2, 2] 2 rfl (by decide)⟩

/-- Claim C8: the default `doAction` performs no propagation and no mutation
at all; a counter/trace-incrementing override, invoked alone, records exactly
one invocation and leaves the heap (hence the attached reactions) untouched,
whatever the heap holds; and `doReactions` on the scenario of C3 invokes only
the reactions (trace `[1, 2]`, exactly two increments), never the receiver's
own `doAction` (id 0 absent from the trace). -/
theorem doAction_local_only :
    (∀ (χ α ε : Type) (i : Nat) (ctx : Option χ) (st : St α),
      (doActionDefault : DoAction χ α ε) i ctx st = (st, none)) ∧
    (∀ (h : Heap) (tr : List Nat),
      traceAction 0 none { heap := h, aux := tr } =
        ({ heap := h, aux := tr ++ [0] }, none)) ∧
    doReactions traceAction 5 0 none { heap := heapTwo, aux := [] } =
      some ({ heap := heapTwo, aux := [1, 2] }, none) := by
  exact ⟨fun χ α ε i ctx st => rfl, fun h tr => rfl, by decide⟩

/-- Claim C9: a failure raised by a `doAction` override propagates out of
`act` unmodified with the reactions skipped, a failing reaction at the head
of the loop aborts the remaining siblings with the same unmodified failure,
and concretely on a root with reactions `[1, 2, 3]` where reaction 2 throws
`42`, `act` returns the error `42` with trace `[0, 1, 2]`: reaction 3 and
its descendants are never invoked and the state mutated before the failure
is kept as is. -/
theorem propagation_failure :
    (∀ (χ α ε : Type) (δ : DoAction χ α ε) (fuel i : Nat) (ctx : Option χ)
      (st st1 : St α) (e : ε),
      δ i ctx st = (st1, some e) →
      act δ (fuel + 1) i ctx st = some (st1, some e)) ∧
    (∀ (χ α ε : Type) (step : Nat → Option χ → St α → Res α ε)
      (r : Nat) (rest : List Nat) (ctx : Option χ) (st st1 : St α) (e : ε),
      step r ctx st = some (st1, some e) →
      runList step (r :: rest) ctx st = some (st1, some e)) ∧
    act throwAction 5 0 none { heap := heapThree, aux := [] } =
      some ({ heap := heapThree, aux := [0, 1, 2] }, some 42) := by
  refine ⟨?_, ?_, by decide⟩
  · intro χ α ε δ fuel i ctx st st1 e h
    simp [act, h]
  · intro χ α ε step r rest ctx st st1 e h
    simp [runList, h]

/-- Claim C9 witness: the first conjunct applied to `throwAction` at the
throwing action 2. -/
theorem propagation_failure_witness :
    throwAction 2 none { heap := heapThree, aux := [] } =
      ({ heap := heapThree, aux := [2] }, some 42) ∧
    act throwAction 4 2 none { heap := heapThree, aux := [] } =
      some ({ heap := heapThree, aux := [2] }, some 42) :=
  ⟨rfl, propagation_failure.1 Unit (List Nat) Nat throwAction 3 2 none
    { heap := heapThree, aux := [] } { heap := heapThree, aux := [2] } 42 rfl⟩

/-- Claim C10: `doReactions` fixes the invoked reactions and their order at
the start of the call — it iterates the fresh list `getAllReactions` computed
from the initial state; concretely, when reaction 1 removes reaction 2 from
the root during the propagation, reaction 2 is still invoked (trace `[1, 2]`)
although the final heap no longer lists it, and when reaction 1 appends a
reaction to the root mid-call, the addition is recorded in the heap but not
invoked by the ongoing call. -/
theorem doReactions_fixed_list :
    (∀ (χ α ε : Type) (δ : DoAction χ α ε) (fuel i : Nat) (ctx : Option χ) (st : St α),
      doReactions δ fuel i ctx st =
        runList (act δ fuel) ((st.heap.obj i).getAllReactions ctx) ctx st) ∧
    doReactions removingAction 5 0 none { heap := heapTwo, aux := [] } =
      some ({ heap := [⟨JSClass.classAction, some [1]⟩, plainObj, plainObj],
              aux := [1, 2] }, none) ∧
    doReactions addingAction 5 0 none { heap := heapTwo, aux := [] } =
      some ({ heap := [⟨JSClass.classAction, some [1, 2, 1]⟩, plainObj, plainObj],
              aux := [1, 2] }, none) := by
  exact ⟨fun χ α ε δ fuel i ctx st => rfl, by decide, by decide⟩
